import Mathlib

/-!
Verification of the Monte Carlo startup-trajectory simulator
(`src/analysis.py`, `run_simulation` and the score aggregation).

The Python floats are modelled as exact rationals (`ℚ`).  The global
numpy random generator is modelled as an explicit stream `rng : ℕ → ℚ`
of uniform draws together with a running counter `k`: every call to
`np.random.rand()` reads `rng k` and advances the counter, exactly in
the order the source consumes draws (shock draw, event draw, then the
event-kind choice draw only when the event triggered).
-/

namespace StartupSim

/-- A competitor profile: the two per-competitor sliders
(`growth`, `aggressiveness`), `analysis.py` lines 29-31. -/
structure Competitor where
  growth : ℚ
  aggressiveness : ℚ
deriving DecidableEq

/-- The flat parameter set consumed by `run_simulation`
(`analysis.py` lines 14-35: the sidebar globals read by the loop). -/
structure Params where
  cash_start : ℚ
  burn_rate : ℚ
  growth_rate_input : ℚ
  retention_input : ℚ
  market_shock_prob : ℚ
  event_chance : ℚ
  competitors : List Competitor
  total_months : ℕ
  num_simulations : ℕ
deriving DecidableEq

/-- The four strategic event kinds (`analysis.py` line 65):
Funding = "Levée de fonds", Partnership = "Partenariat stratégique",
CriticalBug = "Bug critique", ReputationCrisis = "Crise réputationnelle". -/
inductive EventKind where
  | Funding
  | Partnership
  | CriticalBug
  | ReputationCrisis
deriving DecidableEq

/-- The process-wide event tally `event_counts` (`analysis.py` lines 42, 66),
one counter per event kind (a missing dict key is the counter 0). -/
structure Tally where
  funding : ℕ
  partnership : ℕ
  criticalBug : ℕ
  reputationCrisis : ℕ
deriving DecidableEq

/-- The all-zero tally, modelling the empty dict `event_counts = {}`. -/
def Tally.zero : Tally := ⟨0, 0, 0, 0⟩

/-- `event_counts[event_type] = event_counts.get(event_type, 0) + 1`
(`analysis.py` line 66). -/
def Tally.bump : Tally → EventKind → Tally
  | t, .Funding => { t with funding := t.funding + 1 }
  | t, .Partnership => { t with partnership := t.partnership + 1 }
  | t, .CriticalBug => { t with criticalBug := t.criticalBug + 1 }
  | t, .ReputationCrisis => { t with reputationCrisis := t.reputationCrisis + 1 }

/-- `sum(event_counts.values())` (`analysis.py` line 111). -/
def Tally.total (t : Tally) : ℕ :=
  t.funding + t.partnership + t.criticalBug + t.reputationCrisis

/-- The mutable per-trial state (`analysis.py` lines 45-49):
`cash`, `clients`, `growth_rate`, `retention`, `comp_clients`
(one evolving client count per competitor, in list order). -/
structure TrialState where
  cash : ℚ
  clients : ℚ
  growth_rate : ℚ
  retention : ℚ
  comp_clients : List ℚ
deriving DecidableEq

/-- One appended history entry (`analysis.py` lines 84-91): the
post-update cash and clients, the shock flag, the event kind (or none)
and the snapshot of every competitor client count. -/
structure MonthRecord where
  mois : ℕ
  cash : ℚ
  clients : ℚ
  shock : Bool
  event : Option EventKind
  comp_clients : List ℚ
deriving DecidableEq

/-- One trial outcome (`analysis.py` line 98):
`{"succès": success, "cash_final": final_cash, "durée": len(history), "data": history}`. -/
structure TrialResult where
  succes : Bool
  cash_final : ℚ
  duree : ℕ
  data : List MonthRecord
deriving DecidableEq

/-- `np.random.choice([...])` over the fixed four-element list
(`analysis.py` line 65), modelled as decoding one uniform draw
`u ∈ [0,1)` into quarters, one kind per quarter in list order. -/
def chooseEvent (u : ℚ) : EventKind :=
  if u < 1/4 then .Funding
  else if u < 1/2 then .Partnership
  else if u < 3/4 then .CriticalBug
  else .ReputationCrisis

/-- The event effect table (`analysis.py` lines 67-74). -/
def applyEvent : EventKind → TrialState → TrialState
  | .Funding, s => { s with cash := s.cash + 20000 }
  | .Partnership, s => { s with growth_rate := s.growth_rate * (12/10) }
  | .CriticalBug, s => { s with retention := s.retention * (9/10) }
  | .ReputationCrisis, s => { s with growth_rate := s.growth_rate * (7/10) }

/-- `effective_growth = growth_rate / 100 * (0.5 if shock else 1.0)`
(`analysis.py` line 56). -/
def effectiveGrowth0 (gr : ℚ) (shock : Bool) : ℚ :=
  gr / 100 * (if shock then (1:ℚ)/2 else 1)

/-- `comp_clients[i] *= 1 + (comp["growth"] / 100)` (`analysis.py` line 60). -/
def updCC (c : Competitor) (cc : ℚ) : ℚ := cc * (1 + c.growth / 100)

/-- Output of the competitor loop: the updated client counts, the
resulting effective growth, and (for the analysis) the list of
`market_share_loss` values computed along the way. -/
structure CompOut where
  ccs : List ℚ
  eg : ℚ
  losses : List ℚ
deriving DecidableEq

/-- The in-place competitor loop (`analysis.py` lines 58-62): at each
step the current entry is compounded first, so `sum(comp_clients)` at
the moment the loss is computed is the updated prefix `done`, plus the
just-updated current count, plus the not-yet-updated tail.  `done`
holds the already-processed (updated) prefix in order. -/
def compLoopAux (clients : ℚ) (done : List ℚ) (eg : ℚ) :
    List (Competitor × ℚ) → CompOut
  | [] => ⟨done, eg, []⟩
  | (c, cc) :: rest =>
    let cc2 := cc * (1 + c.growth / 100)
    let loss := c.aggressiveness / 100 *
      (cc2 / (clients + (done.sum + cc2 + (rest.map (fun x => x.2)).sum)))
    let o := compLoopAux clients (done ++ [cc2]) (eg * max 0 (1 - loss)) rest
    ⟨o.ccs, o.eg, loss :: o.losses⟩

/-- Output of one simulated month. -/
structure StepOut where
  state : TrialState
  record : MonthRecord
  tally : Tally
  next : ℕ
deriving DecidableEq

/-- One month of the inner loop (`analysis.py` lines 53-91), for month
index `m` (0-based; the record stores `m + 1`).  Draw order follows the
source: `rng k` is the shock draw, `rng (k+1)` the event-trigger draw,
and `rng (k+2)` the event-kind choice draw, consumed only when the
event triggered.  The competitor loop always runs over the (possibly
empty) competitor list, which is exactly the `if wargame_mode:` guard
since wargame mode means a non-empty competitor list.  Note the source
computes `effective_growth` from the pre-event `growth_rate`, while the
client update uses the post-event `retention`. -/
def stepMonth (p : Params) (s : TrialState) (t : Tally) (m : ℕ)
    (rng : ℕ → ℚ) (k : ℕ) : StepOut :=
  let shock : Bool := decide (rng k < p.market_shock_prob / 100)
  let trig : Bool := decide (rng (k+1) < p.event_chance / 100)
  let co := compLoopAux s.clients [] (effectiveGrowth0 s.growth_rate shock)
    (p.competitors.zip s.comp_clients)
  let s1 := if trig then applyEvent (chooseEvent (rng (k+2))) s else s
  let ev : Option EventKind := if trig then some (chooseEvent (rng (k+2))) else none
  let t2 := if trig then t.bump (chooseEvent (rng (k+2))) else t
  let k2 := if trig then k + 3 else k + 2
  let clients2 := s1.clients * (s1.retention / 100) + s1.clients * co.eg
  let cash2 := s1.cash + clients2 * 10 - p.burn_rate
  { state := { cash := cash2, clients := clients2, growth_rate := s1.growth_rate,
               retention := s1.retention, comp_clients := co.ccs },
    record := { mois := m + 1, cash := cash2, clients := clients2, shock := shock,
                event := ev, comp_clients := co.ccs },
    tally := t2,
    next := k2 }

/-- Output of the month loop of one trial. -/
structure MonthsOut where
  hist : List MonthRecord
  final_cash : ℚ
  tally : Tally
  next : ℕ
deriving DecidableEq

/-- The month loop (`analysis.py` lines 52-94): run up to `fuel`
remaining months starting at month index `m`; the record is appended
first and the trial breaks immediately when the post-update cash is
negative.  `final_cash` is the value of `cash` when the loop ends. -/
def runMonths (p : Params) (rng : ℕ → ℚ) :
    ℕ → TrialState → Tally → ℕ → ℕ → MonthsOut
  | 0, s, t, k, _ => ⟨[], s.cash, t, k⟩
  | fuel + 1, s, t, k, m =>
    let o := stepMonth p s t m rng k
    if o.state.cash < 0 then ⟨[o.record], o.state.cash, o.tally, o.next⟩
    else
      let r := runMonths p rng fuel o.state o.tally o.next (m + 1)
      ⟨o.record :: r.hist, r.final_cash, r.tally, r.next⟩

/-- The per-trial initial state (`analysis.py` lines 45-49):
`cash = cash_start`, `clients = 100`, the input growth and retention,
and one competitor client count of 100 per competitor. -/
def initState (p : Params) : TrialState :=
  { cash := p.cash_start, clients := 100, growth_rate := p.growth_rate_input,
    retention := p.retention_input,
    comp_clients := p.competitors.map (fun _ => 100) }

/-- Output of one whole trial. -/
structure TrialOut where
  result : TrialResult
  tally : Tally
  next : ℕ
deriving DecidableEq

/-- One trial (`analysis.py` lines 44-98): simulate up to
`total_months` months from the initial state, then build the result
record (`success = final_cash > 0`, `durée = len(history)`). -/
def runTrial (p : Params) (rng : ℕ → ℚ) (t : Tally) (k : ℕ) : TrialOut :=
  let o := runMonths p rng p.total_months (initState p) t k 0
  { result := { succes := decide (o.final_cash > 0), cash_final := o.final_cash,
                duree := o.hist.length, data := o.hist },
    tally := o.tally,
    next := o.next }

/-- Output of the whole run. -/
structure RunOut where
  results : List TrialResult
  tally : Tally
  next : ℕ
deriving DecidableEq

/-- The trial loop (`analysis.py` line 44): `num_simulations` trials in
order, threading the shared generator counter and the process-wide
event tally. -/
def runTrials (p : Params) (rng : ℕ → ℚ) : ℕ → Tally → ℕ → RunOut
  | 0, t, k => ⟨[], t, k⟩
  | n + 1, t, k =>
    let o := runTrial p rng t k
    let r := runTrials p rng n o.tally o.next
    ⟨o.result :: r.results, r.tally, r.next⟩

/-- `run_simulation` (`analysis.py` lines 40-100):
returns `(results, event_counts)`. -/
def run_simulation (p : Params) (rng : ℕ → ℚ) : List TrialResult × Tally :=
  let o := runTrials p rng p.num_simulations Tally.zero 0
  (o.results, o.tally)

/-- Python's built-in `round` on a nonnegative-or-any real value:
round half to even (`analysis.py` lines 118-121 round float values). -/
def pyRound (x : ℚ) : ℤ :=
  if x - (⌊x⌋ : ℚ) < 1/2 then ⌊x⌋
  else if (1:ℚ)/2 < x - (⌊x⌋ : ℚ) then ⌊x⌋ + 1
  else if ⌊x⌋ % 2 = 0 then ⌊x⌋ else ⌊x⌋ + 1

/-- `success_rate = np.mean([s["succès"] for s in sim_data]) * 100`
(`analysis.py` line 108). -/
def successRate (rs : List TrialResult) : ℚ :=
  ((rs.countP (fun r => r.succes) : ℚ) / (rs.length : ℚ)) * 100

/-- `average_lifetime = np.mean([s["durée"] for s in sim_data])`
(`analysis.py` line 109). -/
def averageLifetime (rs : List TrialResult) : ℚ :=
  ((rs.map (fun r => (r.duree : ℚ))).sum) / (rs.length : ℚ)

/-- The mean of the final cash values, used by `np.std`. -/
def meanCash (rs : List TrialResult) : ℚ :=
  ((rs.map (fun r => r.cash_final)).sum) / (rs.length : ℚ)

/-- The population variance of the final cash values:
`np.std(xs)` (`analysis.py` line 110) is the square root of this. -/
def cashVariance (rs : List TrialResult) : ℚ :=
  ((rs.map (fun r => (r.cash_final - meanCash rs) ^ 2)).sum) / (rs.length : ℚ)

/-- `int(std_dev_cash / 10000)` (`analysis.py` line 120) computed from
the variance `v`: for `v ≥ 0` the truncation `int` is the floor, and
`⌊√v / 10000⌋ = ⌊√(v / 10^8)⌋ = Nat.sqrt ⌊v / 10^8⌋`, which keeps the
definition exactly computable. -/
def stdFloorDiv10000 (v : ℚ) : ℕ :=
  Nat.sqrt (Int.toNat ⌊v / 100000000⌋)

/-- `robust_score = min(5, round(success_rate / 20))` (`analysis.py` line 118). -/
def robustScore (rs : List TrialResult) : ℤ :=
  min 5 (pyRound (successRate rs / 20))

/-- `resilience_score = min(5, round(average_lifetime / (total_months / 5)))`
(`analysis.py` line 119). -/
def resilienceScore (rs : List TrialResult) (p : Params) : ℤ :=
  min 5 (pyRound (averageLifetime rs / ((p.total_months : ℚ) / 5)))

/-- `stability_score = 5 - min(5, int(std_dev_cash / 10000))`
(`analysis.py` line 120). -/
def stabilityScore (rs : List TrialResult) : ℤ :=
  5 - min 5 ((stdFloorDiv10000 (cashVariance rs) : ℤ))

/-- `vulnerability_score = max(0, 5 - round(total_events / num_simulations * 5))`
(`analysis.py` line 121). -/
def vulnerabilityScore (t : Tally) (p : Params) : ℤ :=
  max 0 (5 - pyRound ((t.total : ℚ) / (p.num_simulations : ℚ) * 5))

/-- `total_score` (`analysis.py` line 122). -/
def totalScore (rs : List TrialResult) (t : Tally) (p : Params) : ℤ :=
  robustScore rs + resilienceScore rs p + stabilityScore rs + vulnerabilityScore t p

/-- Modelled from the spec: the valid-parameter ranges of spec §6/§7
(the source performs no validation of its own; the sliders are the only
range control).  Valid means `horizon_months ≥ 1`, `num_trials ≥ 1`,
`burn_rate ≥ 0`, every percent parameter inside its documented range
(`retention_rate`, `shock_probability`, `event_probability` and each
competitor aggressiveness in `[0,100]`). -/
def validParams (p : Params) : Prop :=
  1 ≤ p.total_months ∧ 1 ≤ p.num_simulations ∧ 0 ≤ p.burn_rate ∧
  0 ≤ p.retention_input ∧ p.retention_input ≤ 100 ∧
  0 ≤ p.market_shock_prob ∧ p.market_shock_prob ≤ 100 ∧
  0 ≤ p.event_chance ∧ p.event_chance ≤ 100 ∧
  ∀ c ∈ p.competitors, 0 ≤ c.aggressiveness ∧ c.aggressiveness ≤ 100

instance (p : Params) : Decidable (validParams p) := by
  unfold validParams; infer_instance

/-- The recurrence of spec §8 stated over a history: starting from
clients `c0` and cash `ca0`, each record's clients are the previous
clients times `retention/100 + growth_rate/100` and its cash is the
previous cash plus `clients × 10 − burn_rate`. -/
def followsRec (p : Params) (c0 ca0 : ℚ) : List MonthRecord → Prop
  | [] => True
  | mr :: rest =>
    mr.clients = c0 * (p.retention_input / 100 + p.growth_rate_input / 100) ∧
    mr.cash = ca0 + mr.clients * 10 - p.burn_rate ∧
    followsRec p mr.clients mr.cash rest

/-! ### Basic facts about one month and the month loop -/

lemma stepMonth_record_cash (p : Params) (s : TrialState) (t : Tally) (m : ℕ)
    (rng : ℕ → ℚ) (k : ℕ) :
    (stepMonth p s t m rng k).record.cash = (stepMonth p s t m rng k).state.cash := rfl

lemma runMonths_zero (p : Params) (rng : ℕ → ℚ) (s : TrialState) (t : Tally) (k m : ℕ) :
    runMonths p rng 0 s t k m = ⟨[], s.cash, t, k⟩ := rfl

lemma runMonths_succ (p : Params) (rng : ℕ → ℚ) (fuel : ℕ) (s : TrialState)
    (t : Tally) (k m : ℕ) :
    runMonths p rng (fuel + 1) s t k m =
      (if (stepMonth p s t m rng k).state.cash < 0 then
        ⟨[(stepMonth p s t m rng k).record], (stepMonth p s t m rng k).state.cash,
          (stepMonth p s t m rng k).tally, (stepMonth p s t m rng k).next⟩
      else
        ⟨(stepMonth p s t m rng k).record ::
            (runMonths p rng fuel (stepMonth p s t m rng k).state
              (stepMonth p s t m rng k).tally (stepMonth p s t m rng k).next (m + 1)).hist,
          (runMonths p rng fuel (stepMonth p s t m rng k).state
            (stepMonth p s t m rng k).tally (stepMonth p s t m rng k).next (m + 1)).final_cash,
          (runMonths p rng fuel (stepMonth p s t m rng k).state
            (stepMonth p s t m rng k).tally (stepMonth p s t m rng k).next (m + 1)).tally,
          (runMonths p rng fuel (stepMonth p s t m rng k).state
            (stepMonth p s t m rng k).tally (stepMonth p s t m rng k).next (m + 1)).next⟩) := rfl

lemma runMonths_length_le (p : Params) (rng : ℕ → ℚ) :
    ∀ (fuel : ℕ) (s : TrialState) (t : Tally) (k m : ℕ),
      (runMonths p rng fuel s t k m).hist.length ≤ fuel := by
  intro fuel
  induction fuel with
  | zero => intro s t k m; simp [runMonths_zero]
  | succ n ih =>
    intro s t k m
    rw [runMonths_succ]
    split
    · simp
    · simpa using ih _ _ _ _

lemma runMonths_final_eq_last (p : Params) (rng : ℕ → ℚ) :
    ∀ (fuel : ℕ) (s : TrialState) (t : Tally) (k m : ℕ),
      (runMonths p rng fuel s t k m).final_cash =
        ((runMonths p rng fuel s t k m).hist.map (fun mr => mr.cash)).getLastD s.cash := by
  intro fuel
  induction fuel with
  | zero => intro s t k m; simp [runMonths_zero]
  | succ n ih =>
    intro s t k m
    rw [runMonths_succ]
    split
    · simp [stepMonth_record_cash]
    · simp only [List.map_cons, List.getLastD_cons, stepMonth_record_cash]
      exact ih _ _ _ _

lemma runMonths_short_neg (p : Params) (rng : ℕ → ℚ) :
    ∀ (fuel : ℕ) (s : TrialState) (t : Tally) (k m : ℕ),
      (runMonths p rng fuel s t k m).hist.length < fuel →
        (runMonths p rng fuel s t k m).final_cash < 0 := by
  intro fuel
  induction fuel with
  | zero => intro s t k m h; simp [runMonths_zero] at h
  | succ n ih =>
    intro s t k m h
    rw [runMonths_succ] at h ⊢
    by_cases hb : (stepMonth p s t m rng k).state.cash < 0
    · rw [if_pos hb] at h ⊢; exact hb
    · rw [if_neg hb] at h ⊢
      simp only [List.length_cons, Nat.add_lt_add_iff_right] at h
      exact ih _ _ _ _ h

lemma runMonths_mid_nonneg (p : Params) (rng : ℕ → ℚ) :
    ∀ (fuel : ℕ) (s : TrialState) (t : Tally) (k m : ℕ) (i : ℕ) (d : MonthRecord),
      i + 1 < (runMonths p rng fuel s t k m).hist.length →
        0 ≤ ((runMonths p rng fuel s t k m).hist.getD i d).cash := by
  intro fuel
  induction fuel with
  | zero => intro s t k m i d h; simp [runMonths_zero] at h
  | succ n ih =>
    intro s t k m i d h
    rw [runMonths_succ] at h ⊢
    by_cases hb : (stepMonth p s t m rng k).state.cash < 0
    · rw [if_pos hb] at h
      simp at h
    · rw [if_neg hb] at h ⊢
      cases i with
      | zero =>
        simp only [List.getD_cons_zero, stepMonth_record_cash]
        exact le_of_not_lt hb
      | succ j =>
        simp only [List.getD_cons_succ]
        simp only [List.length_cons, Nat.add_lt_add_iff_right] at h
        exact ih _ _ _ _ _ _ h

/-! ### Facts about a whole trial and the trial loop -/

lemma runTrial_result (p : Params) (rng : ℕ → ℚ) (t : Tally) (k : ℕ) :
    (runTrial p rng t k).result =
      { succes := decide ((runMonths p rng p.total_months (initState p) t k 0).final_cash > 0),
        cash_final := (runMonths p rng p.total_months (initState p) t k 0).final_cash,
        duree := (runMonths p rng p.total_months (initState p) t k 0).hist.length,
        data := (runMonths p rng p.total_months (initState p) t k 0).hist } := rfl

lemma mem_runTrials (p : Params) (rng : ℕ → ℚ) :
    ∀ (n : ℕ) (t : Tally) (k : ℕ) (r : TrialResult),
      r ∈ (runTrials p rng n t k).results →
        ∃ t2 k2, r = (runTrial p rng t2 k2).result := by
  intro n
  induction n with
  | zero => intro t k r h; simp [runTrials] at h
  | succ n ih =>
    intro t k r h
    simp only [runTrials, List.mem_cons] at h
    rcases h with h | h
    · exact ⟨t, k, h⟩
    · exact ih _ _ _ h

lemma mem_run_simulation (p : Params) (rng : ℕ → ℚ) (r : TrialResult)
    (h : r ∈ (run_simulation p rng).1) :
    ∃ t2 k2, r = (runTrial p rng t2 k2).result :=
  mem_runTrials p rng p.num_simulations Tally.zero 0 r h

lemma runTrials_results_length (p : Params) (rng : ℕ → ℚ) :
    ∀ (n : ℕ) (t : Tally) (k : ℕ), (runTrials p rng n t k).results.length = n := by
  intro n
  induction n with
  | zero => intro t k; rfl
  | succ n ih => intro t k; simp only [runTrials, List.length_cons, ih]

/-- A parameter set with `retention_rate = 150`, outside the documented
`[0,100]` range (the example named by the spec), and otherwise ordinary
values. -/
def invalidExample : Params :=
  { cash_start := 20000, burn_rate := 5000, growth_rate_input := 20,
    retention_input := 150, market_shock_prob := 0, event_chance := 0,
    competitors := [], total_months := 1, num_simulations := 1 }

/-- C1 counterexample: the claim says an invalid parameter set (here
`retention_rate = 150`) makes the run fail with `InvalidParameter` and
return no TrialResults; in the code `run_simulation` has no validation
and no error path at all, and on this invalid input it completes and
returns a (non-empty) list of TrialResults. -/
theorem c1_counterexample :
    ¬ validParams invalidExample ∧
      (run_simulation invalidExample (fun _ => 0)).1 ≠ [] := by
  constructor
  · intro h
    have h150 : (150 : ℚ) ≤ 100 := h.2.2.2.2.1
    norm_num [invalidExample] at h150
  · have h1 : ((run_simulation invalidExample (fun _ => 0)).1).length = 1 :=
      runTrials_results_length invalidExample (fun _ => 0) 1 Tally.zero 0
    intro h
    rw [h] at h1
    simp at h1

/-- C1 (amended): `run_simulation` performs no parameter validation and
has no error path: for every parameter set, valid or not, the call
completes and returns exactly `num_simulations` TrialResults. -/
theorem c1_amended (p : Params) (rng : ℕ → ℚ) :
    ((run_simulation p rng).1).length = p.num_simulations :=
  runTrials_results_length p rng p.num_simulations Tally.zero 0

/-- C3: every trial stops either at horizon completion or immediately
after the first month whose post-update cash is negative: the realized
duration equals the history length and never exceeds `total_months`,
every record before the last has nonnegative cash, and a history
shorter than the horizon ends in a record with cash `< 0`. -/
theorem c3_early_stop (p : Params) (rng : ℕ → ℚ) :
    ∀ r ∈ (run_simulation p rng).1,
      r.duree = r.data.length ∧
      r.duree ≤ p.total_months ∧
      (∀ (i : ℕ) (d : MonthRecord), i + 1 < r.data.length → 0 ≤ (r.data.getD i d).cash) ∧
      (r.data.length < p.total_months →
        ∀ mr, r.data.getLast? = some mr → mr.cash < 0) := by
  intro r hr
  obtain ⟨t2, k2, rfl⟩ := mem_run_simulation p rng r hr
  rw [runTrial_result]
  refine ⟨rfl, runMonths_length_le p rng _ _ _ _ _, ?_, ?_⟩
  · intro i d h
    exact runMonths_mid_nonneg p rng _ _ _ _ _ i d h
  · intro hlen mr hlast
    have hfin := runMonths_final_eq_last p rng p.total_months (initState p) t2 k2 0
    have hmap : ((runMonths p rng p.total_months (initState p) t2 k2 0).hist.map
        (fun x => x.cash)).getLast? = some mr.cash := by
      rw [List.getLast?_map]
      simp only [hlast, Option.map_some']
    rw [List.getLastD_eq_getLast?, hmap] at hfin
    have hneg := runMonths_short_neg p rng p.total_months (initState p) t2 k2 0 hlen
    rw [hfin] at hneg
    exact hneg

/-- C4: a TrialResult's success flag is true exactly when its final
cash is strictly positive; final cash exactly 0 gives success = false. -/
theorem c4_success_iff (p : Params) (rng : ℕ → ℚ) :
    ∀ r ∈ (run_simulation p rng).1,
      (r.succes = true ↔ r.cash_final > 0) ∧ (r.cash_final = 0 → r.succes = false) := by
  intro r hr
  obtain ⟨t2, k2, rfl⟩ := mem_run_simulation p rng r hr
  rw [runTrial_result]
  constructor
  · simp
  · intro h0
    have h0' : (runMonths p rng p.total_months (initState p) t2 k2 0).final_cash = 0 := h0
    show decide ((runMonths p rng p.total_months (initState p) t2 k2 0).final_cash > 0) = false
    rw [h0']
    norm_num

/-- C10: a successful trial always ran the full horizon: success forces
a positive final cash, an early stop forces a negative one, so a
successful TrialResult has duration `total_months`. -/
theorem c10_success_full_horizon (p : Params) (rng : ℕ → ℚ) :
    ∀ r ∈ (run_simulation p rng).1, r.succes = true → r.duree = p.total_months := by
  intro r hr hs
  obtain ⟨t2, k2, rfl⟩ := mem_run_simulation p rng r hr
  rw [runTrial_result] at hs ⊢
  simp only [decide_eq_true_eq] at hs
  have hle := runMonths_length_le p rng p.total_months (initState p) t2 k2 0
  rcases Nat.lt_or_ge (runMonths p rng p.total_months (initState p) t2 k2 0).hist.length
      p.total_months with hlt | hge
  · have hneg := runMonths_short_neg p rng p.total_months (initState p) t2 k2 0 hlt
    exact absurd hs (not_lt.mpr (le_of_lt hneg))
  · exact le_antisymm hle hge

/-! ### A small concrete run used by the witnesses -/

/-- A tiny concrete parameter set: one trial, one month, no randomness
influence (both probabilities 0), no competitors. -/
def sampleParams : Params :=
  { cash_start := 100, burn_rate := 0, growth_rate_input := 0, retention_input := 0,
    market_shock_prob := 0, event_chance := 0, competitors := [],
    total_months := 1, num_simulations := 1 }

/-- A concrete stream of uniform draws. -/
def rngHalf : ℕ → ℚ := fun _ => 1/2

/-- The single month record `sampleParams` produces. -/
def sampleRecord : MonthRecord :=
  { mois := 1, cash := 100, clients := 0, shock := false, event := none, comp_clients := [] }

/-- The single trial result `sampleParams` produces. -/
def sampleResult : TrialResult :=
  { succes := true, cash_final := 100, duree := 1, data := [sampleRecord] }

lemma sample_run : (run_simulation sampleParams rngHalf).1 = [sampleResult] := by
  norm_num [run_simulation, runTrials, runTrial, runMonths, stepMonth, initState,
    sampleParams, rngHalf, effectiveGrowth0, compLoopAux, chooseEvent, applyEvent,
    Tally.zero, sampleResult, sampleRecord]

lemma sample_mem : sampleResult ∈ (run_simulation sampleParams rngHalf).1 := by
  rw [sample_run]
  exact List.mem_singleton_self _

/-- C3 witness: the invariants instantiated on the concrete sample run. -/
theorem c3_early_stop_witness :
    sampleResult.duree = sampleResult.data.length ∧
    sampleResult.duree ≤ sampleParams.total_months ∧
    (∀ (i : ℕ) (d : MonthRecord),
      i + 1 < sampleResult.data.length → 0 ≤ (sampleResult.data.getD i d).cash) ∧
    (sampleResult.data.length < sampleParams.total_months →
      ∀ mr, sampleResult.data.getLast? = some mr → mr.cash < 0) :=
  c3_early_stop sampleParams rngHalf sampleResult sample_mem

/-- C4 witness: the success-flag characterization on the sample run. -/
theorem c4_success_iff_witness :
    (sampleResult.succes = true ↔ sampleResult.cash_final > 0) ∧
    (sampleResult.cash_final = 0 → sampleResult.succes = false) :=
  c4_success_iff sampleParams rngHalf sampleResult sample_mem

/-- C10 witness: the successful sample trial ran the full horizon. -/
theorem c10_success_full_horizon_witness :
    sampleResult.duree = sampleParams.total_months :=
  c10_success_full_horizon sampleParams rngHalf sampleResult sample_mem rfl

/-! ### Aggregator score bounds -/

lemma pyRound_nonneg (x : ℚ) (hx : 0 ≤ x) : 0 ≤ pyRound x := by
  have hf : (0:ℤ) ≤ ⌊x⌋ := Int.floor_nonneg.mpr hx
  unfold pyRound
  split_ifs <;> omega

lemma successRate_nonneg (rs : List TrialResult) : 0 ≤ successRate rs := by
  unfold successRate
  positivity

lemma averageLifetime_nonneg (rs : List TrialResult) : 0 ≤ averageLifetime rs := by
  unfold averageLifetime
  apply div_nonneg
  · apply List.sum_nonneg
    intro x hx
    simp only [List.mem_map] at hx
    obtain ⟨r, _, rfl⟩ := hx
    positivity
  · positivity

/-- C5: each of the four sub-scores lies in `[0,5]` and the total score
lies in `[0,20]`. -/
theorem c5_score_bounds (rs : List TrialResult) (t : Tally) (p : Params)
    (h1 : 1 ≤ rs.length) (h2 : 1 ≤ p.num_simulations) :
    (0 ≤ robustScore rs ∧ robustScore rs ≤ 5) ∧
    (0 ≤ resilienceScore rs p ∧ resilienceScore rs p ≤ 5) ∧
    (0 ≤ stabilityScore rs ∧ stabilityScore rs ≤ 5) ∧
    (0 ≤ vulnerabilityScore t p ∧ vulnerabilityScore t p ≤ 5) ∧
    (0 ≤ totalScore rs t p ∧ totalScore rs t p ≤ 20) := by
  have hrob : 0 ≤ robustScore rs ∧ robustScore rs ≤ 5 := by
    unfold robustScore
    refine ⟨le_min (by norm_num) (pyRound_nonneg _ ?_), min_le_left _ _⟩
    have := successRate_nonneg rs
    positivity
  have hres : 0 ≤ resilienceScore rs p ∧ resilienceScore rs p ≤ 5 := by
    unfold resilienceScore
    refine ⟨le_min (by norm_num) (pyRound_nonneg _ ?_), min_le_left _ _⟩
    have := averageLifetime_nonneg rs
    positivity
  have hsta : 0 ≤ stabilityScore rs ∧ stabilityScore rs ≤ 5 := by
    unfold stabilityScore
    have ha : min (5:ℤ) ((stdFloorDiv10000 (cashVariance rs) : ℤ)) ≤ 5 := min_le_left _ _
    have hb : (0:ℤ) ≤ min (5:ℤ) ((stdFloorDiv10000 (cashVariance rs) : ℤ)) :=
      le_min (by norm_num) (Int.natCast_nonneg _)
    omega
  have hvul : 0 ≤ vulnerabilityScore t p ∧ vulnerabilityScore t p ≤ 5 := by
    unfold vulnerabilityScore
    have hr : 0 ≤ pyRound ((t.total : ℚ) / (p.num_simulations : ℚ) * 5) := by
      apply pyRound_nonneg
      positivity
    refine ⟨le_max_left _ _, max_le (by norm_num) (by omega)⟩
  refine ⟨hrob, hres, hsta, hvul, ?_⟩
  unfold totalScore
  constructor
  · linarith [hrob.1, hres.1, hsta.1, hvul.1]
  · linarith [hrob.2, hres.2, hsta.2, hvul.2]

/-- C5 witness: the bounds instantiated on a concrete one-trial result list. -/
theorem c5_score_bounds_witness :
    (0 ≤ robustScore [sampleResult] ∧ robustScore [sampleResult] ≤ 5) ∧
    (0 ≤ resilienceScore [sampleResult] sampleParams ∧
      resilienceScore [sampleResult] sampleParams ≤ 5) ∧
    (0 ≤ stabilityScore [sampleResult] ∧ stabilityScore [sampleResult] ≤ 5) ∧
    (0 ≤ vulnerabilityScore Tally.zero sampleParams ∧
      vulnerabilityScore Tally.zero sampleParams ≤ 5) ∧
    (0 ≤ totalScore [sampleResult] Tally.zero sampleParams ∧
      totalScore [sampleResult] Tally.zero sampleParams ≤ 20) :=
  c5_score_bounds [sampleResult] Tally.zero sampleParams (by norm_num) (by norm_num [sampleParams])

/-! ### The deterministic regime: no shocks, no events, no competitors -/

lemma stepMonth_det (p : Params) (s : TrialState) (t : Tally) (m : ℕ)
    (rng : ℕ → ℚ) (k : ℕ)
    (hs : p.market_shock_prob = 0) (he : p.event_chance = 0) (hc : p.competitors = [])
    (h0 : 0 ≤ rng k) (h1 : 0 ≤ rng (k + 1)) :
    stepMonth p s t m rng k =
      { state := { cash := s.cash + (s.clients * (s.retention / 100) +
                     s.clients * (s.growth_rate / 100)) * 10 - p.burn_rate,
                   clients := s.clients * (s.retention / 100) +
                     s.clients * (s.growth_rate / 100),
                   growth_rate := s.growth_rate, retention := s.retention,
                   comp_clients := [] },
        record := { mois := m + 1,
                    cash := s.cash + (s.clients * (s.retention / 100) +
                      s.clients * (s.growth_rate / 100)) * 10 - p.burn_rate,
                    clients := s.clients * (s.retention / 100) +
                      s.clients * (s.growth_rate / 100),
                    shock := false, event := none, comp_clients := [] },
        tally := t, next := k + 2 } := by
  have hsh : (decide (rng k < p.market_shock_prob / 100)) = false := by
    rw [decide_eq_false_iff_not, hs]
    simpa using not_lt.mpr h0
  have htr : (decide (rng (k + 1) < p.event_chance / 100)) = false := by
    rw [decide_eq_false_iff_not, he]
    simpa using not_lt.mpr h1
  simp only [stepMonth, hsh, htr, hc, List.zip_nil_left, compLoopAux, effectiveGrowth0,
    Bool.false_eq_true, if_false, mul_one]

lemma runMonths_det_follows (p : Params) (rng : ℕ → ℚ)
    (hs : p.market_shock_prob = 0) (he : p.event_chance = 0) (hc : p.competitors = [])
    (h0 : ∀ i, 0 ≤ rng i) :
    ∀ (fuel : ℕ) (s : TrialState) (t : Tally) (k m : ℕ),
      s.growth_rate = p.growth_rate_input → s.retention = p.retention_input →
      followsRec p s.clients s.cash (runMonths p rng fuel s t k m).hist := by
  intro fuel
  induction fuel with
  | zero => intro s t k m _ _; simp [runMonths_zero, followsRec]
  | succ n ih =>
    intro s t k m hgr hre
    rw [runMonths_succ, stepMonth_det p s t m rng k hs he hc (h0 k) (h0 (k + 1))]
    have hcl : s.clients * (s.retention / 100) + s.clients * (s.growth_rate / 100) =
        s.clients * (p.retention_input / 100 + p.growth_rate_input / 100) := by
      rw [hgr, hre]; ring
    split
    · exact ⟨hcl, rfl, trivial⟩
    · refine ⟨hcl, rfl, ?_⟩
      exact ih { cash := s.cash + (s.clients * (s.retention / 100) +
                   s.clients * (s.growth_rate / 100)) * 10 - p.burn_rate,
                 clients := s.clients * (s.retention / 100) +
                   s.clients * (s.growth_rate / 100),
                 growth_rate := s.growth_rate, retention := s.retention,
                 comp_clients := [] } _ _ _ hgr hre

lemma runMonths_det_eq (p : Params) (rng rng2 : ℕ → ℚ)
    (hs : p.market_shock_prob = 0) (he : p.event_chance = 0) (hc : p.competitors = [])
    (h0 : ∀ i, 0 ≤ rng i) (h02 : ∀ i, 0 ≤ rng2 i) :
    ∀ (fuel : ℕ) (s : TrialState) (t t2 : Tally) (k k2 m : ℕ),
      (runMonths p rng fuel s t k m).hist = (runMonths p rng2 fuel s t2 k2 m).hist ∧
      (runMonths p rng fuel s t k m).final_cash =
        (runMonths p rng2 fuel s t2 k2 m).final_cash := by
  intro fuel
  induction fuel with
  | zero => intro s t t2 k k2 m; simp [runMonths_zero]
  | succ n ih =>
    intro s t t2 k k2 m
    have hstate : (stepMonth p s t m rng k).state = (stepMonth p s t2 m rng2 k2).state := by
      rw [stepMonth_det p s t m rng k hs he hc (h0 k) (h0 (k + 1)),
        stepMonth_det p s t2 m rng2 k2 hs he hc (h02 k2) (h02 (k2 + 1))]
    have hrecord : (stepMonth p s t m rng k).record = (stepMonth p s t2 m rng2 k2).record := by
      rw [stepMonth_det p s t m rng k hs he hc (h0 k) (h0 (k + 1)),
        stepMonth_det p s t2 m rng2 k2 hs he hc (h02 k2) (h02 (k2 + 1))]
    rw [runMonths_succ, runMonths_succ, hstate, hrecord]
    split
    · exact ⟨rfl, rfl⟩
    · exact ⟨congrArg (List.cons (stepMonth p s t2 m rng2 k2).record)
          (ih (stepMonth p s t2 m rng2 k2).state (stepMonth p s t m rng k).tally
            (stepMonth p s t2 m rng2 k2).tally (stepMonth p s t m rng k).next
            (stepMonth p s t2 m rng2 k2).next (m + 1)).1,
        (ih (stepMonth p s t2 m rng2 k2).state (stepMonth p s t m rng k).tally
          (stepMonth p s t2 m rng2 k2).tally (stepMonth p s t m rng k).next
          (stepMonth p s t2 m rng2 k2).next (m + 1)).2⟩

/-- C2: with zero shock probability, zero event probability and no
competitors, a trial is deterministic (any two nonnegative draw streams
give the same TrialResult) and its history follows the closed-form
recurrence clients' = clients × (retention/100 + growth_rate/100),
cash' = cash + clients' × 10 − burn_rate, from clients = 100 and
cash = initial cash. -/
theorem c2_deterministic_recurrence (p : Params) (rng rng2 : ℕ → ℚ)
    (t t2 : Tally) (k k2 : ℕ)
    (hs : p.market_shock_prob = 0) (he : p.event_chance = 0) (hc : p.competitors = [])
    (h0 : ∀ i, 0 ≤ rng i) (h02 : ∀ i, 0 ≤ rng2 i) :
    (runTrial p rng t k).result = (runTrial p rng2 t2 k2).result ∧
    followsRec p 100 p.cash_start ((runTrial p rng t k).result).data := by
  have hdet := runMonths_det_eq p rng rng2 hs he hc h0 h02 p.total_months
    (initState p) t t2 k k2 0
  constructor
  · rw [runTrial_result, runTrial_result, hdet.1, hdet.2]
  · have hfol := runMonths_det_follows p rng hs he hc h0 p.total_months
      (initState p) t k 0 rfl rfl
    exact hfol

/-- The parameter set of the spec's hand-computed three-month trace:
growth 20, retention 80, starting cash 20000, burn rate 5000. -/
def traceParams : Params :=
  { cash_start := 20000, burn_rate := 5000, growth_rate_input := 20,
    retention_input := 80, market_shock_prob := 0, event_chance := 0,
    competitors := [], total_months := 3, num_simulations := 1 }

/-- C2 witness: determinism and the recurrence on the spec's trace
parameters, for two distinct concrete draw streams. -/
theorem c2_deterministic_recurrence_witness :
    (runTrial traceParams (fun _ => 0) Tally.zero 0).result =
      (runTrial traceParams (fun _ => 1/2) Tally.zero 5).result ∧
    followsRec traceParams 100 traceParams.cash_start
      ((runTrial traceParams (fun _ => 0) Tally.zero 0).result).data :=
  c2_deterministic_recurrence traceParams (fun _ => 0) (fun _ => 1/2) Tally.zero Tally.zero
    0 5 rfl rfl rfl (fun _ => le_refl 0) (fun _ => by norm_num)

/-! ### Strategic events and shocks inside one month -/

/-- C6: when the event draw triggers, exactly one kind is chosen from
the four (decoded from one uniform draw, one quarter each, in list
order); the effect applied to the persistent state is exactly the
table (Funding: cash += 20000; Partnership: growth_rate ×= 1.2;
CriticalBug: retention ×= 0.9; ReputationCrisis: growth_rate ×= 0.7);
the month's resulting growth_rate and retention are those of the
post-event state, so they carry into every later month, as the final
conjunct's loop unfolding shows: subsequent months are simulated from
exactly this post-event state. -/
theorem c6_event_effects (p : Params) (s : TrialState) (t : Tally) (m k : ℕ)
    (rng : ℕ → ℚ) (htrig : rng (k + 1) < p.event_chance / 100) :
    (∀ s2, applyEvent .Funding s2 = { s2 with cash := s2.cash + 20000 }) ∧
    (∀ s2, applyEvent .Partnership s2 = { s2 with growth_rate := s2.growth_rate * (12/10) }) ∧
    (∀ s2, applyEvent .CriticalBug s2 = { s2 with retention := s2.retention * (9/10) }) ∧
    (∀ s2, applyEvent .ReputationCrisis s2 = { s2 with growth_rate := s2.growth_rate * (7/10) }) ∧
    (stepMonth p s t m rng k).record.event = some (chooseEvent (rng (k + 2))) ∧
    (stepMonth p s t m rng k).tally = t.bump (chooseEvent (rng (k + 2))) ∧
    (stepMonth p s t m rng k).state.growth_rate =
      (applyEvent (chooseEvent (rng (k + 2))) s).growth_rate ∧
    (stepMonth p s t m rng k).state.retention =
      (applyEvent (chooseEvent (rng (k + 2))) s).retention ∧
    (stepMonth p s t m rng k).state.cash =
      (applyEvent (chooseEvent (rng (k + 2))) s).cash +
        (stepMonth p s t m rng k).state.clients * 10 - p.burn_rate ∧
    (∀ fuel, ¬ (stepMonth p s t m rng k).state.cash < 0 →
      (runMonths p rng (fuel + 1) s t k m).hist =
        (stepMonth p s t m rng k).record ::
          (runMonths p rng fuel (stepMonth p s t m rng k).state
            (stepMonth p s t m rng k).tally (stepMonth p s t m rng k).next (m + 1)).hist) := by
  have htr : (decide (rng (k + 1) < p.event_chance / 100)) = true := decide_eq_true htrig
  refine ⟨fun s2 => rfl, fun s2 => rfl, fun s2 => rfl, fun s2 => rfl, ?_, ?_, ?_, ?_, ?_, ?_⟩
  · simp [stepMonth, htr]
  · simp [stepMonth, htr]
  · simp [stepMonth, htr]
  · simp [stepMonth, htr]
  · simp [stepMonth, htr]
  · intro fuel hne
    rw [runMonths_succ, if_neg hne]

/-- A parameter set whose strategic event always triggers. -/
def eventParams : Params :=
  { cash_start := 100, burn_rate := 0, growth_rate_input := 0, retention_input := 0,
    market_shock_prob := 0, event_chance := 100, competitors := [],
    total_months := 1, num_simulations := 1 }

/-- C6 witness: with event probability 100 and the all-zero draw
stream, the month records a Funding event. -/
theorem c6_event_effects_witness :
    (stepMonth eventParams (initState eventParams) Tally.zero 0 (fun _ => 0) 0).record.event =
      some EventKind.Funding := by
  have h := (c6_event_effects eventParams (initState eventParams) Tally.zero 0 0
    (fun _ => 0) (by norm_num [eventParams])).2.2.2.2.1
  simpa [chooseEvent] using h

/-- C7: a market shock only halves that month's base effective-growth
multiplier (0.5 × growth_rate/100 instead of 1 × growth_rate/100); the
persistent growth_rate and retention fields after the month do not
depend on the shock draw at all (two months fed the same event draws
but arbitrary shock draws end in the same growth_rate and retention),
so the base growth computation of the following months is unchanged. -/
theorem c7_shock_frame (p : Params) (s : TrialState) (t1 t2 : Tally) (m k1 k2 : ℕ)
    (rng1 rng2 : ℕ → ℚ)
    (hev : rng1 (k1 + 1) = rng2 (k2 + 1)) (hch : rng1 (k1 + 2) = rng2 (k2 + 2)) :
    effectiveGrowth0 s.growth_rate true = 1/2 * effectiveGrowth0 s.growth_rate false ∧
    (stepMonth p s t1 m rng1 k1).state.growth_rate =
      (stepMonth p s t2 m rng2 k2).state.growth_rate ∧
    (stepMonth p s t1 m rng1 k1).state.retention =
      (stepMonth p s t2 m rng2 k2).state.retention ∧
    (∀ b, effectiveGrowth0 ((stepMonth p s t1 m rng1 k1).state.growth_rate) b =
      effectiveGrowth0 ((stepMonth p s t2 m rng2 k2).state.growth_rate) b) := by
  have hgr : (stepMonth p s t1 m rng1 k1).state.growth_rate =
      (stepMonth p s t2 m rng2 k2).state.growth_rate := by
    simp only [stepMonth, hev, hch]
  have hre : (stepMonth p s t1 m rng1 k1).state.retention =
      (stepMonth p s t2 m rng2 k2).state.retention := by
    simp only [stepMonth, hev, hch]
  refine ⟨?_, hgr, hre, fun b => by rw [hgr]⟩
  unfold effectiveGrowth0
  norm_num
  ring

/-- C7 witness: the frame property instantiated at a concrete state and
two concrete streams that differ in their shock draw. -/
theorem c7_shock_frame_witness :
    effectiveGrowth0 (initState eventParams).growth_rate true =
      1/2 * effectiveGrowth0 (initState eventParams).growth_rate false ∧
    (stepMonth eventParams (initState eventParams) Tally.zero 0 (fun _ => 0) 0).state.growth_rate =
      (stepMonth eventParams (initState eventParams) Tally.zero 0
        (fun i => if i = 0 then 1 else 0) 0).state.growth_rate ∧
    (stepMonth eventParams (initState eventParams) Tally.zero 0 (fun _ => 0) 0).state.retention =
      (stepMonth eventParams (initState eventParams) Tally.zero 0
        (fun i => if i = 0 then 1 else 0) 0).state.retention ∧
    (∀ b, effectiveGrowth0
        ((stepMonth eventParams (initState eventParams) Tally.zero 0
          (fun _ => 0) 0).state.growth_rate) b =
      effectiveGrowth0
        ((stepMonth eventParams (initState eventParams) Tally.zero 0
          (fun i => if i = 0 then 1 else 0) 0).state.growth_rate) b) :=
  c7_shock_frame eventParams (initState eventParams) Tally.zero Tally.zero 0 0 0
    (fun _ => 0) (fun i => if i = 0 then 1 else 0) (by norm_num) (by norm_num)

/-! ### The competitor loop: order-dependent market-share losses -/

lemma compLoopAux_closed (clients : ℚ) :
    ∀ (l : List (Competitor × ℚ)) (done : List ℚ) (eg : ℚ),
      (compLoopAux clients done eg l).ccs = done ++ l.map (fun x => updCC x.1 x.2) ∧
      (compLoopAux clients done eg l).losses.length = l.length ∧
      (compLoopAux clients done eg l).eg =
        eg * ((compLoopAux clients done eg l).losses.map (fun L => max 0 (1 - L))).prod ∧
      ∀ (i : ℕ) (d : ℚ) (dc : Competitor × ℚ), i < l.length →
        (compLoopAux clients done eg l).losses.getD i d =
          (l.getD i dc).1.aggressiveness / 100 *
            (updCC (l.getD i dc).1 (l.getD i dc).2 /
              (clients + (done.sum
                + ((l.take (i + 1)).map (fun x => updCC x.1 x.2)).sum
                + ((l.drop (i + 1)).map (fun x => x.2)).sum))) := by
  intro l
  induction l with
  | nil =>
    intro done eg
    refine ⟨by simp [compLoopAux], by simp [compLoopAux], by simp [compLoopAux], ?_⟩
    intro i d dc hi
    simp at hi
  | cons hd rest ih =>
    intro done eg
    obtain ⟨c, cc⟩ := hd
    simp only [compLoopAux]
    obtain ⟨ih1, ih2, ih3, ih4⟩ := ih (done ++ [cc * (1 + c.growth / 100)])
      (eg * max 0 (1 - c.aggressiveness / 100 *
        (cc * (1 + c.growth / 100) /
          (clients + (done.sum + cc * (1 + c.growth / 100) +
            (rest.map (fun x => x.2)).sum)))))
    refine ⟨?_, ?_, ?_, ?_⟩
    · rw [ih1]
      simp [updCC, List.append_assoc]
    · simp [ih2]
    · rw [List.map_cons, List.prod_cons, ih3]
      ring
    · intro i d dc hi
      cases i with
      | zero =>
        simp [updCC]
      | succ j =>
        have hj : j < rest.length := by
          simpa using hi
        rw [List.getD_cons_succ, ih4 j d dc hj, List.getD_cons_succ,
          List.take_succ_cons, List.drop_succ_cons, List.map_cons, List.sum_cons,
          List.sum_append]
        simp only [updCC, List.sum_cons, List.sum_nil, add_zero]
        ring

/-- C8: competitors are processed in list order; the final competitor
client counts are each compounded once by `1 + growth/100`; the month's
effective growth is the incoming one multiplied by `max 0 (1 - loss)`
for each recorded loss in turn; and the i-th market-share loss is
`aggressiveness_i/100 × (updated count_i / (own clients + sum of all
competitor counts))`, where the denominator's sum uses the in-progress
state: entries up to and including i already compounded, later entries
not yet. -/
theorem c8_competitor_order (clients eg0 : ℚ) (l : List (Competitor × ℚ)) :
    (compLoopAux clients [] eg0 l).ccs = l.map (fun x => updCC x.1 x.2) ∧
    (compLoopAux clients [] eg0 l).losses.length = l.length ∧
    (compLoopAux clients [] eg0 l).eg =
      eg0 * ((compLoopAux clients [] eg0 l).losses.map (fun L => max 0 (1 - L))).prod ∧
    ∀ (i : ℕ) (d : ℚ) (dc : Competitor × ℚ), i < l.length →
      (compLoopAux clients [] eg0 l).losses.getD i d =
        (l.getD i dc).1.aggressiveness / 100 *
          (updCC (l.getD i dc).1 (l.getD i dc).2 /
            (clients + (((l.take (i + 1)).map (fun x => updCC x.1 x.2)).sum
              + ((l.drop (i + 1)).map (fun x => x.2)).sum))) := by
  obtain ⟨h1, h2, h3, h4⟩ := compLoopAux_closed clients l [] eg0
  refine ⟨by simpa using h1, h2, h3, ?_⟩
  intro i d dc hi
  rw [h4 i d dc hi]
  norm_num

/-- C8 witness: the characterization instantiated on one concrete
competitor (growth 50, aggressiveness 30) with 100 starting clients on
both sides: the single recorded loss is
`30/100 × (150 / (100 + 150))`. -/
theorem c8_competitor_order_witness :
    (compLoopAux 100 [] 1 [({ growth := 50, aggressiveness := 30 }, 100)]).losses.getD 0 0 =
      (30 : ℚ) / 100 * (150 / (100 + 150)) := by
  have h := (c8_competitor_order 100 1 [({ growth := 50, aggressiveness := 30 }, 100)]).2.2.2
    0 0 ({ growth := 0, aggressiveness := 0 }, 0) (by norm_num)
  rw [h]
  norm_num [updCC]

/-! ### Reproducibility: the run is a function of the draw stream -/

lemma stepMonth_next_le (p : Params) (s : TrialState) (t : Tally) (m : ℕ)
    (rng : ℕ → ℚ) (k : ℕ) : (stepMonth p s t m rng k).next ≤ k + 3 := by
  simp only [stepMonth]
  split <;> omega

lemma stepMonth_next_ge (p : Params) (s : TrialState) (t : Tally) (m : ℕ)
    (rng : ℕ → ℚ) (k : ℕ) : k ≤ (stepMonth p s t m rng k).next := by
  simp only [stepMonth]
  split <;> omega

lemma stepMonth_ext (p : Params) (s : TrialState) (t : Tally) (m : ℕ)
    (rng1 rng2 : ℕ → ℚ) (k : ℕ)
    (h : ∀ i, k ≤ i → i < k + 3 → rng1 i = rng2 i) :
    stepMonth p s t m rng1 k = stepMonth p s t m rng2 k := by
  have e0 : rng1 k = rng2 k := h k (le_refl k) (by omega)
  have e1 : rng1 (k + 1) = rng2 (k + 1) := h _ (by omega) (by omega)
  have e2 : rng1 (k + 2) = rng2 (k + 2) := h _ (by omega) (by omega)
  simp only [stepMonth, e0, e1, e2]

lemma runMonths_next_le (p : Params) (rng : ℕ → ℚ) :
    ∀ (fuel : ℕ) (s : TrialState) (t : Tally) (k m : ℕ),
      (runMonths p rng fuel s t k m).next ≤ k + 3 * fuel := by
  intro fuel
  induction fuel with
  | zero => intro s t k m; simp [runMonths_zero]
  | succ n ih =>
    intro s t k m
    rw [runMonths_succ]
    have h1 := stepMonth_next_le p s t m rng k
    split
    · simpa using by omega
    · have h2 := ih (stepMonth p s t m rng k).state (stepMonth p s t m rng k).tally
        (stepMonth p s t m rng k).next (m + 1)
      simpa using by omega

lemma runMonths_next_ge (p : Params) (rng : ℕ → ℚ) :
    ∀ (fuel : ℕ) (s : TrialState) (t : Tally) (k m : ℕ),
      k ≤ (runMonths p rng fuel s t k m).next := by
  intro fuel
  induction fuel with
  | zero => intro s t k m; simp [runMonths_zero]
  | succ n ih =>
    intro s t k m
    rw [runMonths_succ]
    have h1 := stepMonth_next_ge p s t m rng k
    split
    · simpa using by omega
    · have h2 := ih (stepMonth p s t m rng k).state (stepMonth p s t m rng k).tally
        (stepMonth p s t m rng k).next (m + 1)
      simpa using by omega

lemma runMonths_ext (p : Params) (rng1 rng2 : ℕ → ℚ) :
    ∀ (fuel : ℕ) (s : TrialState) (t : Tally) (k m : ℕ),
      (∀ i, k ≤ i → i < k + 3 * fuel → rng1 i = rng2 i) →
      runMonths p rng1 fuel s t k m = runMonths p rng2 fuel s t k m := by
  intro fuel
  induction fuel with
  | zero => intro s t k m _; rfl
  | succ n ih =>
    intro s t k m h
    have hstep : stepMonth p s t m rng1 k = stepMonth p s t m rng2 k :=
      stepMonth_ext p s t m rng1 rng2 k (fun i h1 h2 => h i h1 (by omega))
    rw [runMonths_succ, runMonths_succ, hstep]
    split
    · rfl
    · have hkle := stepMonth_next_le p s t m rng2 k
      have hkge := stepMonth_next_ge p s t m rng2 k
      rw [ih (stepMonth p s t m rng2 k).state (stepMonth p s t m rng2 k).tally
        (stepMonth p s t m rng2 k).next (m + 1)
        (fun i h1 h2 => h i (by omega) (by omega))]

lemma runTrial_ext (p : Params) (rng1 rng2 : ℕ → ℚ) (t : Tally) (k : ℕ)
    (h : ∀ i, k ≤ i → i < k + 3 * p.total_months → rng1 i = rng2 i) :
    runTrial p rng1 t k = runTrial p rng2 t k := by
  unfold runTrial
  rw [runMonths_ext p rng1 rng2 p.total_months (initState p) t k 0 h]

lemma runTrial_next_le (p : Params) (rng : ℕ → ℚ) (t : Tally) (k : ℕ) :
    (runTrial p rng t k).next ≤ k + 3 * p.total_months :=
  runMonths_next_le p rng p.total_months (initState p) t k 0

lemma runTrial_next_ge (p : Params) (rng : ℕ → ℚ) (t : Tally) (k : ℕ) :
    k ≤ (runTrial p rng t k).next :=
  runMonths_next_ge p rng p.total_months (initState p) t k 0

lemma runTrials_ext (p : Params) (rng1 rng2 : ℕ → ℚ) :
    ∀ (n : ℕ) (t : Tally) (k : ℕ),
      (∀ i, k ≤ i → i < k + n * (3 * p.total_months) → rng1 i = rng2 i) →
      runTrials p rng1 n t k = runTrials p rng2 n t k := by
  intro n
  induction n with
  | zero => intro t k _; rfl
  | succ n ih =>
    intro t k h
    have hmul : (n + 1) * (3 * p.total_months) =
        n * (3 * p.total_months) + 3 * p.total_months := Nat.succ_mul _ _
    have htrial : runTrial p rng1 t k = runTrial p rng2 t k :=
      runTrial_ext p rng1 rng2 t k (fun i h1 h2 => h i h1 (by omega))
    simp only [runTrials, htrial]
    have hkle := runTrial_next_le p rng2 t k
    have hkge := runTrial_next_ge p rng2 t k
    rw [ih (runTrial p rng2 t k).tally (runTrial p rng2 t k).next
      (fun i h1 h2 => h i (by omega) (by omega))]

/-- C9: the run is a deterministic function of the parameters and the
random draw stream: two runs whose streams agree on every draw the run
can consume (at most 3 per month per trial) produce identical
TrialResult lists and identical event tallies.  With the generator
seeded identically, the streams are identical, so two runs with the
same seed and parameters coincide. -/
theorem c9_reproducible (p : Params) (rng1 rng2 : ℕ → ℚ)
    (h : ∀ i, i < p.num_simulations * (3 * p.total_months) → rng1 i = rng2 i) :
    run_simulation p rng1 = run_simulation p rng2 := by
  unfold run_simulation
  rw [runTrials_ext p rng1 rng2 p.num_simulations Tally.zero 0
    (fun i _ h2 => h i (by simpa using h2))]

/-- C9 witness: two concrete streams that agree on the consumed prefix
but differ later give the same run. -/
theorem c9_reproducible_witness :
    run_simulation sampleParams (fun _ => 1/2) =
      run_simulation sampleParams (fun i => if i < 3 then 1/2 else 7) := by
  apply c9_reproducible sampleParams
  intro i hi
  have h3 : i < 3 := by simpa [sampleParams] using hi
  rw [if_pos h3]

end StartupSim
